import Mathlib

/-!
Verification of the plasma simulator-streaming core.

Shallow embedding of the Rust sources:
* `app/crates/app/src/main.rs` — the fbsimctl raw-surface stream reader,
  the MJPEG multipart reader, and the capture-backend fallback chain;
* `app/src/simulator/mod.rs` — the HTTP stream endpoint's fps/quality policy;
* `app/crates/simulator/src/lib.rs` — the `SessionManager`.

Bytes are modelled as `Nat` (the sources only inspect ASCII values);
`usize` arithmetic is made explicit (`% 2^64` wrapping, saturating
multiplication) where the source relies on it (64-bit target, release
profile).  Fallible externals (JPEG decoding, the frame channel) are
modelled as explicit parameters.
-/

namespace Plasma

/-- The ASCII bytes removed by Rust's `str::trim` / `trim_end` (the
whitespace characters of `char::is_whitespace` restricted to ASCII; every
input these sources trim is ASCII). -/
def isWsByte (b : Nat) : Bool :=
  b = 9 || b = 10 || b = 11 || b = 12 || b = 13 || b = 32

/-- Rust `str::trim_end` on a byte string. -/
def trimEndBytes (l : List Nat) : List Nat :=
  (l.reverse.dropWhile isWsByte).reverse

/-- Rust `str::trim` on a byte string. -/
def trimBytes (l : List Nat) : List Nat :=
  trimEndBytes (l.dropWhile isWsByte)

/-- The `u8` view of an ASCII string literal. -/
def strBytes (s : String) : List Nat :=
  s.toList.map Char.toNat

/-- `u8::to_ascii_lowercase`. -/
def lowerByte (b : Nat) : Nat :=
  if 65 ≤ b ∧ b ≤ 90 then b + 32 else b

/-- ASCII digit test. -/
def isDigitByte (b : Nat) : Bool :=
  48 ≤ b && b ≤ 57

/-- `usize::MAX` on the 64-bit target the app is built for. -/
def usizeMax : Nat := 2 ^ 64 - 1

/-- `usize::saturating_mul` on the 64-bit target. -/
def satMul (a b : Nat) : Nat := min (a * b) usizeMax

/-- Value of a most-significant-first digit-byte string. -/
def digitsVal (l : List Nat) : Nat :=
  l.foldl (fun acc b => acc * 10 + (b - 48)) 0

/-- Rust `str::parse::<usize>`: an optional leading `+`, then one or more
ASCII digits, and the value must fit in `usize`. -/
def parseUsize (l : List Nat) : Option Nat :=
  let l := match l with
    | b :: rest => if b = 43 then rest else b :: rest
    | [] => []
  if l ≠ [] ∧ l.all isDigitByte ∧ digitsVal l ≤ usizeMax then some (digitsVal l)
  else none

/-- `BufRead::read_line`: consume up to and including the first `\n`
(byte 10), or everything when no newline remains.  Returns the line read
and the remaining input. -/
def readLine : List Nat → List Nat × List Nat
  | [] => ([], [])
  | b :: rest =>
      if b = 10 then ([10], rest)
      else
        let p := readLine rest
        (b :: p.1, p.2)

theorem readLine_snd_length_le (l : List Nat) : (readLine l).2.length ≤ l.length := by
  induction l with
  | nil => simp [readLine]
  | cons b rest ih =>
      simp only [readLine]
      by_cases h : b = 10
      · simp [h]
      · simp [h]; omega

theorem readLine_snd_length_lt (l : List Nat) (h : l ≠ []) :
    (readLine l).2.length < l.length := by
  match l with
  | b :: rest =>
      simp only [readLine]
      by_cases hb : b = 10
      · simp [hb]
      · simpa [hb] using Nat.lt_succ_of_le (readLine_snd_length_le rest)

theorem readLine_append (a b : List Nat) (h : 10 ∉ a) :
    readLine (a ++ 10 :: b) = (a ++ [10], b) := by
  induction a with
  | nil => simp [readLine]
  | cons x t ih =>
      have hx : x ≠ 10 := by
        intro hx; exact h (by simp [hx])
      have ht : 10 ∉ t := fun hm => h (List.mem_cons_of_mem _ hm)
      simp [readLine, hx, ih ht]

theorem trimEndBytes_append_nl (l : List Nat) :
    trimEndBytes (l ++ [10]) = trimEndBytes l := by
  simp [trimEndBytes, List.dropWhile, isWsByte]

/-- Result of `mpsc::SyncSender::try_send` as seen by the sources: either
the send succeeded, the bounded channel was full (`TrySendError::Full`),
or the receiver was dropped (`TrySendError::Disconnected`). -/
inductive SendOutcome
  | ok
  | full
  | disconnected
deriving DecidableEq

/-- Observable behaviour of one run of `stream_mjpeg_reader`: the frames
for which `try_send` succeeded, in order, and the function's return value
(`Option<()>`). -/
structure ReaderRun (Img : Type) where
  sent : List Img
  result : Option Unit

theorem ReaderRun.ext_iff {Img : Type} (a b : ReaderRun Img) :
    a = b ↔ a.sent = b.sent ∧ a.result = b.result := by
  cases a; cases b; simp

/-- `"content-length:"`, the lowercase header key matched by
`stream_mjpeg_reader`. -/
def contentLengthKey : List Nat := strBytes "content-length:"

/-- The Content-Length header test of `stream_mjpeg_reader`
(`main.rs:756-761`): ASCII-lowercase the trimmed line, require the prefix
`content-length:`, then trim the remainder and parse it as `usize`. -/
def parseContentLength (trimmed : List Nat) : Option Nat :=
  let lower := trimmed.map lowerByte
  if contentLengthKey.isPrefixOf lower then
    parseUsize (trimBytes (lower.drop contentLengthKey.length))
  else none

/-- `stream_mjpeg_reader` (`main.rs:711-763`).  `dec` models
`image::load_from_memory` (with the subsequent `to_rgba8` conversion
folded into the abstract image type), `oracle k` the outcome the channel
gives the `k`-th `try_send`, `cl` the `content_length` register, `input`
the bytes remaining in the stream.  Invalid UTF-8 read errors are not
modelled: they return `None` exactly like the end-of-input case.  The
two-byte trailer read after a body ignores its error, so it consumes at
most two bytes (`(·.drop 2)`). -/
def mjpegReader {Img : Type} (dec : List Nat → Option Img) (oracle : Nat → SendOutcome)
    (k : Nat) (cl : Option Nat) (input : List Nat) : ReaderRun Img :=
  if hin : input = [] then ⟨[], none⟩
  else
    have hlt : (readLine input).2.length < input.length := readLine_snd_length_lt input hin
    let p := readLine input
    let trimmed := trimEndBytes p.1
    if (strBytes "--").isPrefixOf trimmed then
      mjpegReader dec oracle k none p.2
    else if trimmed = [] then
      match cl with
      | some len =>
          if p.2.length < len then ⟨[], none⟩
          else
            let body := p.2.take len
            let rest2 := (p.2.drop len).drop 2
            have hlt2 : rest2.length < input.length := by
              have h1 : rest2.length ≤ (readLine input).2.length := by
                simp only [rest2, p, List.length_drop]
                omega
              omega
            match dec body with
            | some img =>
                match oracle k with
                | .disconnected => ⟨[], none⟩
                | .ok =>
                    let r := mjpegReader dec oracle (k + 1) none rest2
                    ⟨img :: r.sent, r.result⟩
                | .full => mjpegReader dec oracle (k + 1) none rest2
            | none => mjpegReader dec oracle k none rest2
      | none => mjpegReader dec oracle k none p.2
    else
      match parseContentLength trimmed with
      | some n => mjpegReader dec oracle k (some n) p.2
      | none => mjpegReader dec oracle k cl p.2
termination_by input.length

/-- A line whose lowercase form carries a `content-length:` prefix starts
with `c` or `C`, hence is neither empty nor a boundary (`--`) line. -/
theorem parseContentLength_some_shape (t : List Nat) (n : Nat)
    (h : parseContentLength t = some n) :
    (strBytes "--").isPrefixOf t = false ∧ t ≠ [] := by
  have hp : contentLengthKey.isPrefixOf (t.map lowerByte) = true := by
    by_contra hc
    simp only [Bool.not_eq_true] at hc
    simp [parseContentLength, hc] at h
  match t with
  | [] =>
      simp [contentLengthKey, strBytes, List.isPrefixOf] at hp
  | a :: t2 =>
      have ha : 99 = lowerByte a := by
        have : contentLengthKey = 99 :: (contentLengthKey.tail) := by decide
        rw [this] at hp
        simp only [List.map_cons, List.isPrefixOf, Bool.and_eq_true, beq_iff_eq] at hp
        exact hp.1
      constructor
      · by_cases h45 : a = 45
        · rw [h45] at ha
          simp [lowerByte] at ha
        · have h45b : (45 == a) = false := by
            simp only [beq_eq_false_iff_ne, ne_eq]
            exact fun hcon => h45 hcon.symm
          have hsb : strBytes "--" = 45 :: [45] := by decide
          rw [hsb]
          simp [List.isPrefixOf, h45b]
      · simp

theorem mjpegReader_nil {Img : Type} (dec : List Nat → Option Img) (oracle : Nat → SendOutcome)
    (k : Nat) (cl : Option Nat) :
    mjpegReader dec oracle k cl [] = ⟨[], none⟩ := by
  rw [mjpegReader]
  rfl

/-- A line starting with the boundary marker `--` resets the recorded
content length and nothing else. -/
theorem mjpegReader_boundary_line {Img : Type} (dec : List Nat → Option Img)
    (oracle : Nat → SendOutcome) (k : Nat) (cl : Option Nat) (bnd rest : List Nat)
    (hnl : 10 ∉ bnd) (hb : (strBytes "--").isPrefixOf (trimEndBytes bnd) = true) :
    mjpegReader dec oracle k cl (bnd ++ 10 :: rest) = mjpegReader dec oracle k none rest := by
  conv_lhs => rw [mjpegReader]
  rw [dif_neg (by simp : ¬(bnd ++ 10 :: rest = []))]
  simp only [readLine_append bnd rest hnl, trimEndBytes_append_nl, hb, if_true]

/-- A non-boundary, non-blank header line records the value of a
`content-length:` header (case-insensitively) and nothing else. -/
theorem mjpegReader_header_line {Img : Type} (dec : List Nat → Option Img)
    (oracle : Nat → SendOutcome) (k : Nat) (cl : Option Nat) (hdr rest : List Nat) (n : Nat)
    (hnl : 10 ∉ hdr) (hcl : parseContentLength (trimEndBytes hdr) = some n) :
    mjpegReader dec oracle k cl (hdr ++ 10 :: rest) = mjpegReader dec oracle k (some n) rest := by
  obtain ⟨hnb, hne⟩ := parseContentLength_some_shape _ _ hcl
  conv_lhs => rw [mjpegReader]
  rw [dif_neg (by simp : ¬(hdr ++ 10 :: rest = []))]
  simp only [readLine_append hdr rest hnl, trimEndBytes_append_nl, hnb, hne, hcl,
    Bool.false_eq_true, if_false]

/-- A blank line with a recorded length `n` reads exactly the `n` body
bytes that follow, consumes the two trailer bytes, decodes the body
(dropping it silently when decoding fails), and resumes header
accumulation with the length register cleared. -/
theorem mjpegReader_body_step {Img : Type} (dec : List Nat → Option Img)
    (oracle : Nat → SendOutcome) (k : Nat) (n : Nat) (body rest : List Nat)
    (hlen : body.length = n) :
    mjpegReader dec oracle k (some n) (13 :: 10 :: (body ++ 13 :: 10 :: rest)) =
      match dec body with
      | none => mjpegReader dec oracle k none rest
      | some img =>
          match oracle k with
          | .disconnected => ⟨[], none⟩
          | .ok => ⟨img :: (mjpegReader dec oracle (k + 1) none rest).sent,
                    (mjpegReader dec oracle (k + 1) none rest).result⟩
          | .full => mjpegReader dec oracle (k + 1) none rest := by
  subst hlen
  conv_lhs => rw [mjpegReader]
  rw [dif_neg (by simp : ¬(13 :: 10 :: (body ++ 13 :: 10 :: rest) = []))]
  have hrl : readLine (13 :: 10 :: (body ++ 13 :: 10 :: rest)) =
      ([13, 10], body ++ 13 :: 10 :: rest) := by
    simp [readLine]
  have htr : trimEndBytes [13, 10] = [] := by decide
  have hnb : (strBytes "--").isPrefixOf ([] : List Nat) = false := by decide
  have hnlt : ¬((body ++ 13 :: 10 :: rest).length < body.length) := by
    simp
  have htk : (body ++ 13 :: 10 :: rest).take body.length = body := List.take_left body _
  have hdp : (body ++ 13 :: 10 :: rest).drop body.length = 13 :: 10 :: rest :=
    List.drop_left body _
  simp only [hrl, htr, hnb, Bool.false_eq_true, if_false, if_true, hnlt, htk, hdp,
    List.drop_succ_cons, List.drop_zero]
  cases dec body <;> rfl

/-- Every exit of `stream_mjpeg_reader` — end of stream, read failure,
`read_exact` failure, consumer disconnect — returns `None`; no code path
returns `Some(())`. -/
theorem mjpegReader_result_none {Img : Type} (dec : List Nat → Option Img)
    (oracle : Nat → SendOutcome) (k : Nat) (cl : Option Nat) (input : List Nat) :
    (mjpegReader dec oracle k cl input).result = none := by
  induction k, cl, input using mjpegReader.induct dec oracle with
  | case1 k cl => simp [mjpegReader_nil]
  | case2 k cl input hne hlt p trimmed hb ih =>
      unfold_let trimmed p at hb ih
      rw [mjpegReader]
      simp only [dif_neg hne, hb, if_true]
      exact ih
  | case3 k input hne hlt p trimmed hnb htr len hshort =>
      unfold_let trimmed p at hnb htr hshort
      rw [mjpegReader]
      simp only [dif_neg hne, hnb, htr, hshort, if_true, if_false, Bool.false_eq_true,
        eq_self_iff_true, ite_true, ite_false,
        (by decide : (strBytes "--").isPrefixOf ([] : List Nat) = false)]
  | case4 k input hne hlt p trimmed hnb htr len hnlt body rest2 hr2 img hdec hor =>
      unfold_let rest2 body trimmed p at hnb htr hnlt hdec
      rw [mjpegReader]
      simp only [dif_neg hne, hnb, htr, hnlt, hdec, hor, if_true, if_false, Bool.false_eq_true,
        eq_self_iff_true, ite_true, ite_false,
        (by decide : (strBytes "--").isPrefixOf ([] : List Nat) = false)]
  | case5 k input hne hlt p trimmed hnb htr len hnlt body rest2 hr2 img hdec hor ih =>
      unfold_let rest2 body trimmed p at hnb htr hnlt hdec ih
      rw [mjpegReader]
      simp only [dif_neg hne, hnb, htr, hnlt, hdec, hor, if_true, if_false, Bool.false_eq_true,
        eq_self_iff_true, ite_true, ite_false]
      exact ih
  | case6 k input hne hlt p trimmed hnb htr len hnlt body rest2 hr2 img hdec hor ih =>
      unfold_let rest2 body trimmed p at hnb htr hnlt hdec ih
      rw [mjpegReader]
      simp only [dif_neg hne, hnb, htr, hnlt, hdec, hor, if_true, if_false, Bool.false_eq_true,
        eq_self_iff_true, ite_true, ite_false]
      exact ih
  | case7 k input hne hlt p trimmed hnb htr len hnlt body rest2 hr2 hdec ih =>
      unfold_let rest2 body trimmed p at hnb htr hnlt hdec ih
      rw [mjpegReader]
      simp only [dif_neg hne, hnb, htr, hnlt, hdec, if_true, if_false, Bool.false_eq_true,
        eq_self_iff_true, ite_true, ite_false]
      exact ih
  | case8 k input hne hlt p trimmed hnb htr ih =>
      unfold_let trimmed p at hnb htr ih
      rw [mjpegReader]
      simp only [dif_neg hne, hnb, htr, if_true, if_false, Bool.false_eq_true,
        eq_self_iff_true, ite_true, ite_false]
      exact ih
  | case9 k cl input hne hlt p trimmed hnb htnb len hcl ih =>
      unfold_let trimmed p at hnb htnb hcl ih
      rw [mjpegReader]
      simp only [dif_neg hne, hnb, htnb, hcl, if_true, if_false, Bool.false_eq_true,
        eq_self_iff_true, ite_true, ite_false]
      exact ih
  | case10 k cl input hne hlt p trimmed hnb htnb hcl ih =>
      unfold_let trimmed p at hnb htnb hcl ih
      rw [mjpegReader]
      simp only [dif_neg hne, hnb, htnb, hcl, if_true, if_false, Bool.false_eq_true,
        eq_self_iff_true, ite_true, ite_false]
      exact ih

/-- The retry loop of `stream_mjpeg_with_retries` (`main.rs:765-798`),
counting attempts from `attempt`.  `conn a` is the outcome of the `a`-th
`ureq::get(url).call()` (`none` = connection failure, `some bytes` = a
response whose body is `bytes`); `oracle a` is the channel oracle for the
reader run of attempt `a`. -/
def retriesGo {Img : Type} (dec : List Nat → Option Img) (oracle : Nat → Nat → SendOutcome)
    (conn : Nat → Option (List Nat)) (attempt : Nat) : Bool :=
  match conn (attempt + 1) with
  | none =>
      if h10 : 10 ≤ attempt + 1 then false
      else retriesGo dec oracle conn (attempt + 1)
  | some resp =>
      if (mjpegReader dec (oracle (attempt + 1)) 0 none resp).result.isSome then true
      else if h10 : 10 ≤ attempt + 1 then false
      else retriesGo dec oracle conn (attempt + 1)
termination_by 10 - attempt
decreasing_by
  all_goals omega

/-- `stream_mjpeg_with_retries` (`main.rs:765-798`): returns `true` exactly
when some reader run returns `Some(())` within the first 10 connection
attempts. -/
def streamMjpegWithRetries {Img : Type} (dec : List Nat → Option Img)
    (oracle : Nat → Nat → SendOutcome) (conn : Nat → Option (List Nat)) : Bool :=
  retriesGo dec oracle conn 0

theorem retriesGo_eq_false {Img : Type} (dec : List Nat → Option Img)
    (oracle : Nat → Nat → SendOutcome) (conn : Nat → Option (List Nat)) (attempt : Nat) :
    retriesGo dec oracle conn attempt = false := by
  induction attempt using retriesGo.induct dec oracle conn with
  | case1 attempt hconn h10 =>
      rw [retriesGo]
      simp [hconn, h10]
  | case2 attempt hconn h10 ih =>
      rw [retriesGo]
      simp [hconn, h10, ih]
  | case3 attempt resp hconn hsome =>
      exact absurd hsome (by simp [mjpegReader_result_none])
  | case4 attempt resp hconn hsome h10 =>
      rw [retriesGo]
      simp [hconn, hsome, h10]
  | case5 attempt resp hconn hsome h10 ih =>
      rw [retriesGo]
      simp [hconn, hsome, h10, ih]

/-- **C3.** `stream_mjpeg_reader` implements the specified header state
machine: a line starting with the boundary marker `--` resets the recorded
content length; a header line matching `content-length: N`
(case-insensitively) records `N`; a blank line with a recorded length `N`
reads exactly the next `N` body bytes, consumes and discards the two-byte
CRLF trailer that follows them, and resumes header accumulation for the
next part with the length register cleared. -/
theorem mjpeg_reader_header_state_machine {Img : Type} (dec : List Nat → Option Img)
    (oracle : Nat → SendOutcome) :
    (∀ (k : Nat) (cl : Option Nat) (bnd rest : List Nat), 10 ∉ bnd →
      (strBytes "--").isPrefixOf (trimEndBytes bnd) = true →
      mjpegReader dec oracle k cl (bnd ++ 10 :: rest) = mjpegReader dec oracle k none rest)
    ∧ (∀ (k : Nat) (cl : Option Nat) (hdr rest : List Nat) (n : Nat), 10 ∉ hdr →
      parseContentLength (trimEndBytes hdr) = some n →
      mjpegReader dec oracle k cl (hdr ++ 10 :: rest) = mjpegReader dec oracle k (some n) rest)
    ∧ (∀ (k n : Nat) (body rest : List Nat), body.length = n →
      mjpegReader dec oracle k (some n) (13 :: 10 :: (body ++ 13 :: 10 :: rest)) =
        match dec body with
        | none => mjpegReader dec oracle k none rest
        | some img =>
            match oracle k with
            | .disconnected => ⟨[], none⟩
            | .ok => ⟨img :: (mjpegReader dec oracle (k + 1) none rest).sent,
                      (mjpegReader dec oracle (k + 1) none rest).result⟩
            | .full => mjpegReader dec oracle (k + 1) none rest) :=
  ⟨fun k cl bnd rest h1 h2 => mjpegReader_boundary_line dec oracle k cl bnd rest h1 h2,
   fun k cl hdr rest n h1 h2 => mjpegReader_header_line dec oracle k cl hdr rest n h1 h2,
   fun k n body rest h => mjpegReader_body_step dec oracle k n body rest h⟩

/-- Witness for C3: a mixed-case `Content-Length: 2` header records 2, a
boundary line resets a previously recorded length, and a blank line with
length 2 delivers exactly the two body bytes `[7, 8]` as one frame. -/
theorem mjpeg_reader_header_state_machine_witness :
    (mjpegReader (fun l => some l) (fun _ => SendOutcome.ok) 0 (some 5)
        ([45, 45, 102] ++ 10 :: []) =
      mjpegReader (fun l => some l) (fun _ => SendOutcome.ok) 0 none [])
    ∧ (mjpegReader (fun l => some l) (fun _ => SendOutcome.ok) 0 none
        (strBytes "Content-Length: 2" ++ 10 :: []) =
      mjpegReader (fun l => some l) (fun _ => SendOutcome.ok) 0 (some 2) [])
    ∧ mjpegReader (fun l => some l) (fun _ => SendOutcome.ok) 0 (some 2)
        (13 :: 10 :: ([7, 8] ++ 13 :: 10 :: [])) = ⟨[[7, 8]], none⟩ := by
  obtain ⟨h1, h2, h3⟩ :=
    mjpeg_reader_header_state_machine (fun l : List Nat => some l) (fun _ => SendOutcome.ok)
  refine ⟨h1 0 (some 5) [45, 45, 102] [] (by decide) (by decide),
          h2 0 none (strBytes "Content-Length: 2") [] 2 (by decide) (by decide),
          ?_⟩
  rw [h3 0 2 [7, 8] [] rfl]
  simp [mjpegReader_nil]

/-- **C4.** A part whose body (of the declared content length) fails JPEG
decoding is dropped without aborting the reader and without emitting a
frame: the loop continues, and a subsequent valid part in the same stream
still decodes and its frame is delivered. -/
theorem mjpeg_reader_corrupt_body_skipped {Img : Type} (dec : List Nat → Option Img)
    (oracle : Nat → SendOutcome) (k : Nat) (cl : Option Nat)
    (hdr1 bad hdr2 good rest : List Nat) (img : Img)
    (h1nl : 10 ∉ hdr1) (h2nl : 10 ∉ hdr2)
    (h1cl : parseContentLength (trimEndBytes hdr1) = some bad.length)
    (h2cl : parseContentLength (trimEndBytes hdr2) = some good.length)
    (hbad : dec bad = none) (hgood : dec good = some img)
    (hok : oracle k = SendOutcome.ok) :
    mjpegReader dec oracle k cl
      (hdr1 ++ 10 :: 13 :: 10 :: (bad ++ 13 :: 10 ::
        (hdr2 ++ 10 :: 13 :: 10 :: (good ++ 13 :: 10 :: rest)))) =
      ⟨img :: (mjpegReader dec oracle (k + 1) none rest).sent,
        (mjpegReader dec oracle (k + 1) none rest).result⟩ := by
  rw [mjpegReader_header_line dec oracle k cl hdr1 _ _ h1nl h1cl,
    mjpegReader_body_step dec oracle k _ bad _ rfl]
  simp only [hbad]
  rw [mjpegReader_header_line dec oracle k none hdr2 _ _ h2nl h2cl,
    mjpegReader_body_step dec oracle k _ good _ rfl]
  simp only [hgood, hok]

/-- Witness for C4: with a decoder that rejects `[9]` and accepts `[7, 8]`,
the stream `content-length: 1`/body `[9]` followed by
`Content-Length: 2`/body `[7, 8]` delivers exactly the frame `[7, 8]`. -/
theorem mjpeg_reader_corrupt_body_skipped_witness :
    mjpegReader (fun l => if l = [9] then none else some l) (fun _ => SendOutcome.ok) 0 none
      (strBytes "content-length: 1" ++ 10 :: 13 :: 10 :: ([9] ++ 13 :: 10 ::
        (strBytes "Content-Length: 2" ++ 10 :: 13 :: 10 :: ([7, 8] ++ 13 :: 10 :: [])))) =
      ⟨[[7, 8]], none⟩ := by
  rw [mjpeg_reader_corrupt_body_skipped (fun l => if l = [9] then none else some l)
    (fun _ => SendOutcome.ok) 0 none (strBytes "content-length: 1") [9]
    (strBytes "Content-Length: 2") [7, 8] [] [7, 8]
    (by decide) (by decide) (by decide) (by decide) (by decide) (by decide) rfl]
  simp [mjpegReader_nil]

/-- **C9.** `stream_mjpeg_reader` returns `None` on every input — its only
exits are end-of-stream, a read or `read_exact` failure, or consumer
disconnect, and no path returns `Some(())` — therefore
`stream_mjpeg_with_retries` (whose value is what
`capture_frames_with_sim_server` returns, `main.rs:931`) can never return
`true`: after at most 10 connection attempts the sim-server backend
reports failure even when a stream was delivered, falling through to
window capture. -/
theorem mjpeg_reader_never_some {Img : Type} (dec : List Nat → Option Img) :
    (∀ (oracle : Nat → SendOutcome) (k : Nat) (cl : Option Nat) (input : List Nat),
        (mjpegReader dec oracle k cl input).result = none)
    ∧ ∀ (oracle : Nat → Nat → SendOutcome) (conn : Nat → Option (List Nat)),
        streamMjpegWithRetries dec oracle conn = false :=
  ⟨fun oracle k cl input => mjpegReader_result_none dec oracle k cl input,
   fun oracle conn => retriesGo_eq_false dec oracle conn 0⟩

/-- The stream geometry of the fbsimctl raw-surface backend
(`FbsimctlStreamAttributes`, `main.rs:249-255`), as parsed from the
startup banner; each field is a `usize`. -/
structure FbsimctlStreamAttributes where
  width : Nat
  height : Nat
  row_size : Nat
  frame_size : Nat
deriving DecidableEq

/-- The row de-striding loop of `read_fbsimctl_stream` (`main.rs:526-531`):
for each `y < height`, copy the `width*4` bytes starting at byte
`y * row_size` of the frame slice. -/
def destrideFrame (attrs : FbsimctlStreamAttributes) (frameBytes : List Nat) : List Nat :=
  (List.range attrs.height).flatMap
    fun y => (frameBytes.drop (y * attrs.row_size)).take (attrs.width * 4)

/-- `image::RgbaImage::from_raw` at the call site `main.rs:533-534`: the
constructor succeeds exactly when the buffer length matches
`width*height*4` (the call site only ever builds buffers of exactly the
rows' total length). -/
def rgbaFromRaw (w h : Nat) (buf : List Nat) : Option (List Nat) :=
  if buf.length = w * h * 4 then some buf else none

/-- The inner `while stash.len() - offset >= frame_size` slicing loop of
`read_fbsimctl_stream` (`main.rs:523-546`, with the trailing
`stash.drain(0..offset)` folded in): peel complete `frame_size`-byte
slices off the front of the stash, returning the slices and the remaining
bytes.  The `0 < fs` guard is forced by termination: with `frame_size = 0`
the Rust loop itself never terminates, and no theorem below relies on
that case. -/
def fbSlice (fs : Nat) (stash : List Nat) : List (List Nat) × List Nat :=
  if _h : 0 < fs ∧ fs ≤ stash.length then
    let rec2 := fbSlice fs (stash.drop fs)
    (stash.take fs :: rec2.1, rec2.2)
  else ([], stash)
termination_by stash.length
decreasing_by simp only [List.length_drop]; omega

/-- Per-slice work of `read_fbsimctl_stream` (`main.rs:524-543`): destride
each slice, build the image, and hand it to the channel when construction
succeeds.  The consumer is modelled as connected, so every built image is
handed to `try_send` (`Ok` and `Full` both continue the loop). -/
def emitFrames (attrs : FbsimctlStreamAttributes) (frames : List (List Nat)) : List (List Nat) :=
  frames.filterMap fun f => rgbaFromRaw attrs.width attrs.height (destrideFrame attrs f)

/-- `read_fbsimctl_stream` (`main.rs:506-553`) over the chunk sequence the
successive `stdout.read` calls deliver.  The list running out — or an
empty chunk — models `Ok(0)` (end of stream); a read error exits the same
way.  Returns the frames handed to the channel and the return value
(every exit returns `false`). -/
def readFbsimctlStream (attrs : FbsimctlStreamAttributes) (stash : List Nat)
    (chunks : List (List Nat)) : List (List Nat) × Bool :=
  match chunks with
  | [] => ([], false)
  | c :: cs =>
      if c = [] then ([], false)
      else
        let sliced := fbSlice attrs.frame_size (stash ++ c)
        let later := readFbsimctlStream attrs sliced.2 cs
        (emitFrames attrs sliced.1 ++ later.1, later.2)

theorem fbSlice_rem_length (fs : Nat) (hfs : 0 < fs) (l : List Nat) :
    (fbSlice fs l).2.length < fs := by
  induction l using fbSlice.induct fs with
  | case1 l h ih =>
      rw [fbSlice]
      simp only [dif_pos h]
      exact ih
  | case2 l h =>
      rw [fbSlice]
      simp only [dif_neg h]
      omega

theorem fbSlice_not_lt (fs : Nat) (l : List Nat) (h : ¬(0 < fs ∧ fs ≤ l.length)) :
    fbSlice fs l = ([], l) := by
  rw [fbSlice]
  simp only [dif_neg h]

theorem fbSlice_append (fs : Nat) (a b : List Nat) :
    fbSlice fs (a ++ b) =
      ((fbSlice fs a).1 ++ (fbSlice fs ((fbSlice fs a).2 ++ b)).1,
        (fbSlice fs ((fbSlice fs a).2 ++ b)).2) := by
  by_cases hfs : 0 < fs
  · suffices hmain : ∀ (n : Nat) (a : List Nat), a.length = n →
        fbSlice fs (a ++ b) =
          ((fbSlice fs a).1 ++ (fbSlice fs ((fbSlice fs a).2 ++ b)).1,
            (fbSlice fs ((fbSlice fs a).2 ++ b)).2) by
      exact hmain a.length a rfl
    intro n
    induction n using Nat.strong_induction_on with
    | _ n ih =>
        intro a ha
        by_cases hle : fs ≤ a.length
        · have htk : (a ++ b).take fs = a.take fs := List.take_append_of_le_length hle
          have hdp : (a ++ b).drop fs = a.drop fs ++ b := List.drop_append_of_le_length hle
          rw [fbSlice.eq_def fs (a ++ b)]
          simp only [List.length_append, dif_pos (⟨hfs, by omega⟩ : 0 < fs ∧ fs ≤ a.length + b.length),
            htk, hdp]
          conv_rhs => rw [fbSlice.eq_def fs a]
          simp only [dif_pos (⟨hfs, hle⟩ : 0 < fs ∧ fs ≤ a.length)]
          have hrec := ih (a.drop fs).length (by simp only [List.length_drop]; omega)
            (a.drop fs) rfl
          rw [hrec]
          simp
        · rw [fbSlice_not_lt fs a (by omega)]
          simp
  · have hz : ∀ x : List Nat, fbSlice fs x = ([], x) := fun x =>
      fbSlice_not_lt fs x (by omega)
    simp [hz]


theorem destrideFrame_row_length (attrs : FbsimctlStreamAttributes) (f : List Nat)
    (hrow : attrs.width * 4 ≤ attrs.row_size)
    (hframe : attrs.row_size * attrs.height ≤ attrs.frame_size)
    (hlen : f.length = attrs.frame_size) (y : Nat) (hy : y < attrs.height) :
    ((f.drop (y * attrs.row_size)).take (attrs.width * 4)).length = attrs.width * 4 := by
  simp only [List.length_take, List.length_drop, hlen]
  have hstep : (y + 1) * attrs.row_size ≤ attrs.height * attrs.row_size :=
    mul_le_mul_right' (Nat.succ_le_of_lt hy) attrs.row_size
  have hmul : attrs.height * attrs.row_size = attrs.row_size * attrs.height := Nat.mul_comm _ _
  have hy1 : (y + 1) * attrs.row_size = y * attrs.row_size + attrs.row_size := by ring
  omega

theorem destrideFrame_length (attrs : FbsimctlStreamAttributes) (f : List Nat)
    (hrow : attrs.width * 4 ≤ attrs.row_size)
    (hframe : attrs.row_size * attrs.height ≤ attrs.frame_size)
    (hlen : f.length = attrs.frame_size) :
    (destrideFrame attrs f).length = attrs.width * attrs.height * 4 := by
  unfold destrideFrame
  rw [List.length_flatMap]
  have hmap : (List.range attrs.height).map
      (fun y => ((f.drop (y * attrs.row_size)).take (attrs.width * 4)).length) =
      (List.range attrs.height).map (fun _ => attrs.width * 4) := by
    apply List.map_congr_left
    intro y hy
    exact destrideFrame_row_length attrs f hrow hframe hlen y (List.mem_range.mp hy)
  have hcomp : (List.length ∘ fun y => (f.drop (y * attrs.row_size)).take (attrs.width * 4)) =
      fun y => ((f.drop (y * attrs.row_size)).take (attrs.width * 4)).length := rfl
  rw [hcomp, hmap]
  have hrep : List.map (fun _ => attrs.width * 4) (List.range attrs.height) =
      List.replicate attrs.height (attrs.width * 4) := by
    simp [List.map_const]
  rw [hrep, List.sum_replicate, smul_eq_mul]
  ring

/-- Extracting row `y` of a concatenation of rows that all have length
`L`. -/
theorem flatMap_range_row (L : Nat) :
    ∀ (h y : Nat) (g : Nat → List Nat), y < h → (∀ i, i < h → (g i).length = L) →
      (((List.range h).flatMap g).drop (y * L)).take L = g y := by
  intro h y
  induction y generalizing h with
  | zero =>
      intro g hy hg
      match h, hy with
      | h2 + 1, _ =>
          rw [List.range_succ_eq_map]
          simp only [List.flatMap_cons, List.flatMap_map, Nat.zero_mul, List.drop_zero]
          exact List.take_left' (hg 0 (by omega))
  | succ y ih =>
      intro g hy hg
      match h, hy with
      | h2 + 1, _ =>
          rw [List.range_succ_eq_map]
          simp only [List.flatMap_cons, List.flatMap_map]
          have hL : (g 0).length = L := hg 0 (by omega)
          have hsplit : (y + 1) * L = (g 0).length + y * L := by rw [hL]; ring
          rw [hsplit, List.drop_append]
          exact ih h2 (fun a => g (a + 1)) (by omega) (fun i hi => hg (i + 1) (by omega))

theorem readFbsimctlStream_spec (attrs : FbsimctlStreamAttributes)
    (hfs : 0 < attrs.frame_size) :
    ∀ (chunks : List (List Nat)) (stash : List Nat), stash.length < attrs.frame_size →
      (∀ c ∈ chunks, c ≠ []) →
      readFbsimctlStream attrs stash chunks =
        (emitFrames attrs (fbSlice attrs.frame_size (stash ++ chunks.flatten)).1, false) := by
  intro chunks
  induction chunks with
  | nil =>
      intro stash hlen _
      rw [readFbsimctlStream]
      rw [fbSlice_not_lt attrs.frame_size (stash ++ List.flatten []) (by simp; omega)]
      simp [emitFrames]
  | cons c cs ih =>
      intro stash hlen hne
      have hc : c ≠ [] := hne c (by simp)
      have hrem : (fbSlice attrs.frame_size (stash ++ c)).2.length < attrs.frame_size :=
        fbSlice_rem_length attrs.frame_size hfs (stash ++ c)
      have hih := ih (fbSlice attrs.frame_size (stash ++ c)).2 hrem
        (fun x hx => hne x (List.mem_cons_of_mem c hx))
      have happ := fbSlice_append attrs.frame_size (stash ++ c) cs.flatten
      rw [readFbsimctlStream]
      simp only [if_neg hc, hih, List.flatten_cons, ← List.append_assoc, happ, emitFrames,
        List.filterMap_append]


/-- **C1** (amended: the geometry must additionally have `frame_size ≥ 1`;
the all-zero descriptor satisfies the stated invariant yet yields no
frame, see `read_fbsimctl_stream_zero_geometry`).  Under the geometry
invariant `row_size ≥ width*4` and `row_size*height ≤ frame_size` with
`frame_size ≥ 1`, an input stream containing exactly `frame_size` bytes
yields exactly one frame, of exactly `width*height*4` bytes, whose row
`y` consists of bytes `[y*row_size, y*row_size + width*4)` of the input
frame slice, rows in original order; an input of fewer than `frame_size`
bytes yields no frame and no slice is ever taken. -/
theorem read_fbsimctl_stream_geometry (attrs : FbsimctlStreamAttributes)
    (chunks : List (List Nat))
    (hrow : attrs.width * 4 ≤ attrs.row_size)
    (hframe : attrs.row_size * attrs.height ≤ attrs.frame_size)
    (hfs : 0 < attrs.frame_size)
    (hne : ∀ c ∈ chunks, c ≠ []) :
    (chunks.flatten.length = attrs.frame_size →
      (readFbsimctlStream attrs [] chunks).1 = [destrideFrame attrs chunks.flatten]
      ∧ (destrideFrame attrs chunks.flatten).length = attrs.width * attrs.height * 4
      ∧ ∀ y, y < attrs.height →
          ((destrideFrame attrs chunks.flatten).drop (y * (attrs.width * 4))).take
              (attrs.width * 4) =
            (chunks.flatten.drop (y * attrs.row_size)).take (attrs.width * 4))
    ∧ (chunks.flatten.length < attrs.frame_size →
      (readFbsimctlStream attrs [] chunks).1 = []) := by
  have hspec := readFbsimctlStream_spec attrs hfs chunks []
    (by simpa using hfs) hne
  constructor
  · intro hlen
    have ht : chunks.flatten.take attrs.frame_size = chunks.flatten := by
      rw [← hlen]; exact List.take_length _
    have hd : chunks.flatten.drop attrs.frame_size = [] := by
      rw [← hlen]; exact List.drop_length _
    have hslice : fbSlice attrs.frame_size chunks.flatten = ([chunks.flatten], []) := by
      rw [fbSlice]
      rw [dif_pos ⟨hfs, le_of_eq hlen.symm⟩, ht, hd,
        fbSlice_not_lt attrs.frame_size [] (by simp only [List.length_nil]; omega)]
    have hlen2 := destrideFrame_length attrs chunks.flatten hrow hframe hlen
    refine ⟨?_, hlen2, ?_⟩
    · rw [hspec]
      simp only [List.nil_append, hslice]
      simp [emitFrames, rgbaFromRaw, hlen2]
    · intro y hy
      unfold destrideFrame
      exact flatMap_range_row (attrs.width * 4) attrs.height y
        (fun i => (chunks.flatten.drop (i * attrs.row_size)).take (attrs.width * 4)) hy
        (fun i hi => destrideFrame_row_length attrs chunks.flatten hrow hframe hlen i hi)
  · intro hshort
    have hempty : fbSlice attrs.frame_size chunks.flatten = ([], chunks.flatten) :=
      fbSlice_not_lt _ _ (by omega)
    rw [hspec]
    simp [hempty, emitFrames]

/-- Witness for C1: geometry `{width 2, height 2, row_size 12,
frame_size 24}` on 24 bytes split across two reads delivers exactly one
frame holding rows `0..7` and `12..19`; 23 bytes deliver nothing. -/
theorem read_fbsimctl_stream_geometry_witness :
    (readFbsimctlStream ⟨2, 2, 12, 24⟩ []
        [[0, 1, 2, 3, 4, 5, 6, 7, 8, 9],
         [10, 11, 12, 13, 14, 15, 16, 17, 18, 19, 20, 21, 22, 23]]).1 =
      [[0, 1, 2, 3, 4, 5, 6, 7, 12, 13, 14, 15, 16, 17, 18, 19]]
    ∧ (readFbsimctlStream ⟨2, 2, 12, 24⟩ []
        [[0, 1, 2, 3, 4, 5, 6, 7, 8, 9],
         [10, 11, 12, 13, 14, 15, 16, 17, 18, 19, 20, 21, 22]]).1 = [] := by
  constructor
  · have h := (read_fbsimctl_stream_geometry ⟨2, 2, 12, 24⟩
        [[0, 1, 2, 3, 4, 5, 6, 7, 8, 9],
         [10, 11, 12, 13, 14, 15, 16, 17, 18, 19, 20, 21, 22, 23]]
        (by decide) (by decide) (by decide) (by decide)).1 (by decide)
    rw [h.1]
    decide
  · exact (read_fbsimctl_stream_geometry ⟨2, 2, 12, 24⟩
        [[0, 1, 2, 3, 4, 5, 6, 7, 8, 9],
         [10, 11, 12, 13, 14, 15, 16, 17, 18, 19, 20, 21, 22]]
        (by decide) (by decide) (by decide) (by decide)).2 (by decide)

/-- Counterexample to C1 as frozen: the descriptor
`{width 0, height 0, row_size 0, frame_size 0}` satisfies the claimed
geometry invariant, and the empty stream contains exactly `frame_size`
bytes, yet `read_fbsimctl_stream` yields no frame at all (the first
`read` returns `Ok(0)` and the function exits), not "exactly one frame".
-/
theorem read_fbsimctl_stream_zero_geometry :
    (let attrs : FbsimctlStreamAttributes := ⟨0, 0, 0, 0⟩
     attrs.width * 4 ≤ attrs.row_size ∧ attrs.row_size * attrs.height ≤ attrs.frame_size
       ∧ (List.flatten ([] : List (List Nat))).length = attrs.frame_size
       ∧ (readFbsimctlStream attrs [] []).1 = []) := by
  refine ⟨by decide, by decide, by decide, ?_⟩
  rw [readFbsimctlStream]


/-- The capacity-1 frame channel of `PlasmaApp::start_streaming`
(`mpsc::sync_channel::<Arc<RenderImage>>(1)`, `main.rs:191`), modelled by
its buffer: `none` = empty, `some f` = one buffered frame.  `try_send`
follows the std `SyncSender` contract the producers rely on
(`main.rs:538-542`, `746-750`, `982-986`, `1017-1021`): into an empty
buffer the frame is stored (`Ok`); into a full buffer nothing is stored
and the frame just handed in comes back inside `TrySendError::Full` — the
NEW frame is the dropped one.  `try_send` never blocks and never panics:
it is a total function returning immediately. -/
def trySendSlot {α : Type} (slot : Option α) (x : α) : Option α × SendOutcome :=
  match slot with
  | none => (some x, SendOutcome.ok)
  | some b => (some b, SendOutcome.full)

/-- A producer burst: `try_send` each frame in order with no intervening
consumer drain. -/
def sendBurst {α : Type} (slot : Option α) (xs : List α) : Option α :=
  xs.foldl (fun s x => (trySendSlot s x).1) slot

theorem sendBurst_full {α : Type} (b : α) (xs : List α) :
    sendBurst (some b) xs = some b := by
  induction xs with
  | nil => rfl
  | cons x t ih => simpa [sendBurst, trySendSlot] using ih

/-- Counterexample to C2 as frozen: sending frames `1` then `2` into the
empty capacity-1 channel leaves frame `1` retrievable, not the most
recent frame `2` — `try_send` into an occupied slot keeps the stale frame
and drops the NEW one, the opposite of "replaces/drops the stale frame".
-/
theorem frame_queue_not_latest_wins :
    sendBurst (none : Option Nat) [1, 2] = some 1 ∧ (some 1 : Option Nat) ≠ some 2 := by
  constructor
  · rfl
  · decide

/-- **C2** (amended).  The Frame Delivery Queue never blocks or panics in
the producer (`try_send` is total and immediate), but it is
oldest-wins, not latest-wins: a send into an occupied slot returns
`Full`, leaves the buffered frame in place and drops the NEW frame, so
after a burst of sends with no intervening drain starting from an empty
channel the retrievable frame is the FIRST of the burst. -/
theorem frame_queue_semantics {α : Type} :
    (∀ x : α, trySendSlot (none : Option α) x = (some x, SendOutcome.ok))
    ∧ (∀ b x : α, trySendSlot (some b) x = (some b, SendOutcome.full))
    ∧ ∀ xs : List α, sendBurst (none : Option α) xs = xs.head? := by
  refine ⟨fun x => rfl, fun b x => rfl, fun xs => ?_⟩
  cases xs with
  | nil => rfl
  | cons x t => simpa [sendBurst, trySendSlot] using sendBurst_full x t

/-- Events observable while `capture_frames` (`main.rs:942-1028`) runs. -/
inductive CaptureEvent
  | tryFbsimctl
  | trySimServer
  | storeMode (m : Nat)
  | enterWindowLoop
deriving DecidableEq

/-- Abstract outcomes of the two process-based backends: `fbReady` —
`capture_frames_with_fbsimctl` found its binary, received a banner and
the geometry passed validation (the commit point where it stores mode 4,
`main.rs:699`); `fbStream` — the value `read_fbsimctl_stream` then
returns; `ssReady` — the sim-server printed a `stream_ready` URL (commit
point, mode 1, `main.rs:930`); `ssStream` — the value
`stream_mjpeg_with_retries` then returns.  (The stream results are in
fact always `false` — see C9 — but the orchestrator is modelled for
arbitrary values.) -/
structure BackendOutcomes where
  fbReady : Bool
  fbStream : Bool
  ssReady : Bool
  ssStream : Bool

/-- `capture_frames_with_fbsimctl` (`main.rs:555-709`): every pre-commit
failure returns `false` with no mode stored; after commit, mode 4 is
stored and the read loop's value is returned. -/
def fbsimctlRun (b : BackendOutcomes) : List CaptureEvent × Bool :=
  if b.fbReady then ([CaptureEvent.storeMode 4], b.fbStream) else ([], false)

/-- `capture_frames_with_sim_server` (`main.rs:800-940`): store mode 1 on
`stream_ready`, then return `stream_mjpeg_with_retries`'s value. -/
def simServerRun (b : BackendOutcomes) : List CaptureEvent × Bool :=
  if b.ssReady then ([CaptureEvent.storeMode 1], b.ssStream) else ([], false)

/-- `capture_frames` (`main.rs:942-1028`): try fbsimctl; if it returns
`false`, try sim-server; if that returns `false`, enter the
window-capture/screenshot polling loop, which never returns to the
process backends. -/
def captureFramesTrace (b : BackendOutcomes) : List CaptureEvent :=
  CaptureEvent.tryFbsimctl :: (fbsimctlRun b).1 ++
    (if (fbsimctlRun b).2 then []
     else CaptureEvent.trySimServer :: (simServerRun b).1 ++
       (if (simServerRun b).2 then [] else [CaptureEvent.enterWindowLoop]))

/-- The events after the first occurrence of `e` in a trace. -/
def afterFirst (e : CaptureEvent) (tr : List CaptureEvent) : List CaptureEvent :=
  (tr.dropWhile (fun x => x != e)).tail

/-- **C5.** The capture fallback tries the backends in the fixed order
native-surface (fbsimctl), external stream tool (sim-server), window
capture / screenshot polling as the floor; a backend commits by storing
its `CaptureMode` label (4 for fbsimctl, 1 for sim-server) the moment its
ready signal arrives; after a process backend terminally fails the
orchestrator advances and never re-attempts an earlier backend — in
particular backend 0 is attempted exactly once, nothing after sim-server
activation (`storeMode 1`) ever retries fbsimctl or re-stores its label,
and the window loop is entered exactly when both process backends have
failed. -/
theorem capture_fallback_order (b : BackendOutcomes) :
    (captureFramesTrace b).head? = some CaptureEvent.tryFbsimctl
    ∧ (captureFramesTrace b).count CaptureEvent.tryFbsimctl = 1
    ∧ (captureFramesTrace b).count CaptureEvent.trySimServer ≤ 1
    ∧ CaptureEvent.tryFbsimctl ∉ afterFirst CaptureEvent.trySimServer (captureFramesTrace b)
    ∧ CaptureEvent.tryFbsimctl ∉ afterFirst (CaptureEvent.storeMode 1) (captureFramesTrace b)
    ∧ CaptureEvent.storeMode 4 ∉ afterFirst (CaptureEvent.storeMode 1) (captureFramesTrace b)
    ∧ (CaptureEvent.storeMode 4 ∈ captureFramesTrace b ↔ b.fbReady = true)
    ∧ (CaptureEvent.trySimServer ∈ captureFramesTrace b ↔ (b.fbReady && b.fbStream) = false)
    ∧ (CaptureEvent.storeMode 1 ∈ captureFramesTrace b ↔
        (b.fbReady && b.fbStream) = false ∧ b.ssReady = true)
    ∧ (CaptureEvent.enterWindowLoop ∈ captureFramesTrace b ↔
        (b.fbReady && b.fbStream) = false ∧ (b.ssReady && b.ssStream) = false) := by
  obtain ⟨f1, f2, f3, f4⟩ := b
  cases f1 <;> cases f2 <;> cases f3 <;> cases f4 <;> decide

/-- Observable actions of `capture_frames_with_fbsimctl` once the banner
has been parsed (`main.rs:679-708`). -/
inductive FbsimctlEvent
  | logGeometryViolation
  | killChild
  | storeMode4
  | streamStart
deriving DecidableEq

/-- The post-banner part of `capture_frames_with_fbsimctl`
(`main.rs:679-708`), with `usize` arithmetic explicit: the first check is
`attrs.row_size < attrs.width * 4` with the release-profile wrapping
product, the second is `attrs.row_size.saturating_mul(attrs.height) >
attrs.frame_size`.  On a violation it logs, kills the child and returns
`false` with no streaming (and hence no slicing); otherwise it stores
mode 4, runs `read_fbsimctl_stream` (result abstracted as
`streamResult`) and kills the child on the way out. -/
def fbsimctlAfterAttrs (attrs : FbsimctlStreamAttributes) (streamResult : Bool) :
    List FbsimctlEvent × Bool :=
  if attrs.row_size < (attrs.width * 4) % 2 ^ 64 then
    ([FbsimctlEvent.logGeometryViolation, FbsimctlEvent.killChild], false)
  else if attrs.frame_size < satMul attrs.row_size attrs.height then
    ([FbsimctlEvent.logGeometryViolation, FbsimctlEvent.killChild], false)
  else
    ([FbsimctlEvent.storeMode4, FbsimctlEvent.streamStart, FbsimctlEvent.killChild],
      streamResult)

/-- Counterexample to C6 as frozen: two parsed geometries that violate
the claimed invariant yet make the code commit and stream anyway.
(a) `{width 1, height 2^32, row_size 2^32, frame_size 2^64-1}`:
`row_size*height = 2^64 > frame_size`, but the saturating product equals
`usize::MAX = frame_size`, so the check passes.  (b) `{width 2^62,
height 1, row_size 8, frame_size 8}`: `width*4 = 2^64` wraps to `0`, so
`row_size < width*4` goes undetected.  All four fields of both
geometries are parseable `usize` values. -/
theorem fbsimctl_geometry_saturation_hole :
    (¬((2 : Nat) ^ 32 * 2 ^ 32 ≤ 2 ^ 64 - 1)
      ∧ fbsimctlAfterAttrs ⟨1, 2 ^ 32, 2 ^ 32, 2 ^ 64 - 1⟩ false =
          ([FbsimctlEvent.storeMode4, FbsimctlEvent.streamStart, FbsimctlEvent.killChild],
            false))
    ∧ (¬((2 : Nat) ^ 62 * 4 ≤ 8)
      ∧ fbsimctlAfterAttrs ⟨2 ^ 62, 1, 8, 8⟩ false =
          ([FbsimctlEvent.storeMode4, FbsimctlEvent.streamStart, FbsimctlEvent.killChild],
            false)) := by
  refine ⟨⟨by norm_num, ?_⟩, ⟨by norm_num, ?_⟩⟩ <;>
    simp [fbsimctlAfterAttrs, satMul, usizeMax]

/-- **C6** (amended: equivalence between the code's checks and the
claimed invariant additionally requires `width*4 < 2^64` and
`row_size*height ≤ usize::MAX`; the code's wrapping/saturating
arithmetic lets the two geometries of
`fbsimctl_geometry_saturation_hole` through).  For every parsed geometry
within those bounds, a violation of `row_size ≥ width*4` or
`frame_size ≥ row_size*height` makes `capture_frames_with_fbsimctl` log
the violation, kill the spawned process and return `false` without
streaming (hence without slicing a single frame); when the invariant
holds it stores mode 4 and begins streaming. -/
theorem fbsimctl_geometry_validation (attrs : FbsimctlStreamAttributes) (sr : Bool)
    (hw : attrs.width * 4 < 2 ^ 64)
    (hrh : attrs.row_size * attrs.height ≤ usizeMax) :
    (¬(attrs.width * 4 ≤ attrs.row_size ∧ attrs.row_size * attrs.height ≤ attrs.frame_size) →
      fbsimctlAfterAttrs attrs sr =
        ([FbsimctlEvent.logGeometryViolation, FbsimctlEvent.killChild], false))
    ∧ ((attrs.width * 4 ≤ attrs.row_size ∧ attrs.row_size * attrs.height ≤ attrs.frame_size) →
      fbsimctlAfterAttrs attrs sr =
        ([FbsimctlEvent.storeMode4, FbsimctlEvent.streamStart, FbsimctlEvent.killChild],
          sr)) := by
  have hwrap : (attrs.width * 4) % 2 ^ 64 = attrs.width * 4 := Nat.mod_eq_of_lt hw
  have hsat : satMul attrs.row_size attrs.height = attrs.row_size * attrs.height :=
    min_eq_left hrh
  unfold fbsimctlAfterAttrs
  rw [hwrap, hsat]
  constructor
  · intro hviol
    rcases Nat.lt_or_ge attrs.row_size (attrs.width * 4) with hlt | hge
    · rw [if_pos hlt]
    · rw [if_neg (by omega)]
      rw [if_pos (by omega)]
  · intro hok
    rw [if_neg (by omega), if_neg (by omega)]

/-- Witness for C6: the spec's scenario geometry with `row_size` one byte
short is rejected with a kill and no streaming; the valid variant
commits and streams. -/
theorem fbsimctl_geometry_validation_witness :
    fbsimctlAfterAttrs ⟨100, 50, 399, 20000⟩ false =
      ([FbsimctlEvent.logGeometryViolation, FbsimctlEvent.killChild], false)
    ∧ fbsimctlAfterAttrs ⟨100, 50, 400, 20000⟩ true =
      ([FbsimctlEvent.storeMode4, FbsimctlEvent.streamStart, FbsimctlEvent.killChild],
        true) :=
  ⟨(fbsimctl_geometry_validation ⟨100, 50, 399, 20000⟩ false (by norm_num)
      (by norm_num [usizeMax])).1 (by norm_num),
   (fbsimctl_geometry_validation ⟨100, 50, 400, 20000⟩ true (by norm_num)
      (by norm_num [usizeMax])).2 (by norm_num)⟩


/-- The streaming backend `stream_simulator` selects
(`app/src/simulator/mod.rs:47-53`): `plasma-stream` when its binary is
found, else `axe`. -/
inductive Streamer
  | plasmaStream
  | axe
deriving DecidableEq

/-- The fps policy of `stream_simulator` (`mod.rs:55-62`): `query.fps`,
else the parsed `PLASMA_STREAM_FPS` value, else 30 — capped with
`.min(60)`. -/
def resolveFps (queryFps envFps : Option Nat) : Nat :=
  ((queryFps.or envFps).getD 30).min 60

/-- Rust `f32::clamp` on non-NaN input (`f32` values are modelled as
exact rationals; clamp only compares, so order is preserved exactly). -/
def rustClamp (x lo hi : ℚ) : ℚ :=
  if x < lo then lo else if hi < x then hi else x

/-- The quality policy of `stream_simulator` (`mod.rs:64-71`):
`query.quality`, else the parsed `PLASMA_STREAM_QUALITY` value, else 0.6
— clamped to `[0.1, 1.0]`. -/
def resolveQuality (queryQ envQ : Option ℚ) : ℚ :=
  rustClamp ((queryQ.or envQ).getD (6 / 10)) (1 / 10) 1

/-- The numeric payloads of the command `stream_simulator` builds and
spawns (`mod.rs:84-106`): both backends receive `--fps fps`;
`plasma-stream` receives `--quality quality` (the clamped fraction); axe
receives `--quality min((quality * 100.0) as u32, 80)` (`as` truncation
toward zero, then the cap at 80 "to avoid PNG output"). -/
structure HandedArgs where
  fps : Nat
  qualityFraction : Option ℚ
  qualityPercent : Option Nat
deriving DecidableEq

/-- `((quality * 100.0) as u32).min(80)` (`mod.rs:95`). -/
def axeQuality (q : ℚ) : Nat := min (⌊q * 100⌋.toNat) 80

/-- `stream_simulator`'s resolved numeric arguments for the spawned
backend command (`mod.rs:55-106`). -/
def streamSimulatorArgs (s : Streamer) (queryFps envFps : Option Nat)
    (queryQ envQ : Option ℚ) : HandedArgs :=
  let fps := resolveFps queryFps envFps
  let quality := resolveQuality queryQ envQ
  match s with
  | .plasmaStream => ⟨fps, some quality, none⟩
  | .axe => ⟨fps, none, some (axeQuality quality)⟩

theorem rustClamp_mem (x : ℚ) : 1 / 10 ≤ rustClamp x (1 / 10) 1 ∧ rustClamp x (1 / 10) 1 ≤ 1 := by
  unfold rustClamp
  split_ifs with h1 h2
  · norm_num
  · norm_num
  · constructor <;> linarith

/-- Counterexample to C7 as frozen: with the axe backend and requested
quality `1.0`, the clamped quality is `1.0`, but the quality value handed
to the spawned backend is the integer percentage `80` — i.e. the
fraction `0.8`, not the clamped requested value `1.0`. -/
theorem stream_quality_axe_capped :
    resolveQuality (some 1) none = 1
    ∧ (streamSimulatorArgs Streamer.axe (some 30) none (some 1) none).qualityPercent = some 80
    ∧ (80 : ℚ) / 100 ≠ resolveQuality (some 1) none := by
  refine ⟨?_, ?_, ?_⟩
  · norm_num [resolveQuality, rustClamp]
  · norm_num [streamSimulatorArgs, resolveQuality, rustClamp, axeQuality]
  · norm_num [resolveQuality, rustClamp]

/-- **C7** (amended: the fps clause holds for both backends; the quality
value handed to `plasma-stream` is the clamped fraction itself, but axe
is handed the clamped value converted to a truncated integer percentage
and further capped at 80, not the clamped fraction).  For every stream
request, fps = (requested, else `PLASMA_STREAM_FPS`, else 30) capped at
60, and the quality used to build the command is the requested (else
env, else 0.6) value clamped into `[0.1, 1.0]`; both are resolved before
the backend command is built. -/
theorem stream_simulator_clamping (s : Streamer) (queryFps envFps : Option Nat)
    (queryQ envQ : Option ℚ) :
    resolveFps queryFps envFps = min ((queryFps.or envFps).getD 30) 60
    ∧ resolveFps queryFps envFps ≤ 60
    ∧ 1 / 10 ≤ resolveQuality queryQ envQ
    ∧ resolveQuality queryQ envQ ≤ 1
    ∧ (streamSimulatorArgs s queryFps envFps queryQ envQ).fps = resolveFps queryFps envFps
    ∧ (s = Streamer.plasmaStream →
        (streamSimulatorArgs s queryFps envFps queryQ envQ).qualityFraction =
          some (resolveQuality queryQ envQ))
    ∧ (s = Streamer.axe →
        (streamSimulatorArgs s queryFps envFps queryQ envQ).qualityPercent =
          some (axeQuality (resolveQuality queryQ envQ))) := by
  obtain ⟨hlo, hhi⟩ := rustClamp_mem ((queryQ.or envQ).getD (6 / 10))
  refine ⟨rfl, Nat.min_le_right _ _, hlo, hhi, ?_, ?_, ?_⟩
  · cases s <;> rfl
  · intro hs; subst hs; rfl
  · intro hs; subst hs; rfl

/-- Witness for C7: axe backend, requested fps 120 and quality 2.0 — the
spawned command receives fps 60 and quality percentage 80. -/
theorem stream_simulator_clamping_witness :
    (streamSimulatorArgs Streamer.axe (some 120) none (some 2) none).fps = 60
    ∧ (streamSimulatorArgs Streamer.axe (some 120) none (some 2) none).qualityPercent =
      some 80 := by
  have h := stream_simulator_clamping Streamer.axe (some 120) none (some 2) none
  constructor
  · rw [h.2.2.2.2.1]
    rfl
  · rw [h.2.2.2.2.2.2 rfl]
    norm_num [resolveQuality, rustClamp, axeQuality]

/-- `SessionInfo` (`crates/simulator/src/lib.rs:34-45`), payload fields
abstracted to `Nat` (their values never influence control flow). -/
structure SessionInfo where
  udid : Nat
  projectPath : Nat
  streamUrl : Option Nat
  width : Nat
  height : Nat
deriving DecidableEq

/-- `SessionManager` (`lib.rs:59-64`): an optional current session and an
optional backing `simulator-server` process (pids as `Nat`).  The two
`Option` fields are the whole state. -/
structure SessionManagerState where
  current_session : Option SessionInfo
  server_process : Option Nat
deriving DecidableEq

/-- `SessionManager::new` (`lib.rs:68-73`). -/
def sessionManagerNew : SessionManagerState := ⟨none, none⟩

/-- `SessionManager::stop_session` (`lib.rs:102-109`): take the backing
process (killing and waiting on it when present — the kill cannot fail in
any reachable state because no process is ever stored) and clear the
session.  Returns the new state and the pids killed. -/
def stop_session (m : SessionManagerState) : SessionManagerState × List Nat :=
  (⟨none, none⟩, m.server_process.toList)

/-- `SessionManager::start_session` (`lib.rs:76-99`): first
`stop_session` (kill and wait on any existing backing process), then
record the new session with the canonical stream URL (`some 0` stands
for `http://localhost:8080/stream.mjpeg`).  No backing process is
spawned: the spawn is a `TODO` in the source (`lib.rs:86-87`). -/
def start_session (m : SessionManagerState) (udid projectPath width height : Nat) :
    SessionManagerState × List Nat :=
  let s := stop_session m
  ({ current_session := some ⟨udid, projectPath, some 0, width, height⟩,
     server_process := s.1.server_process }, s.2)

/-- One client-visible operation on the session manager. -/
inductive SessionOp
  | start (udid projectPath width height : Nat)
  | stop

def sessionStep (m : SessionManagerState) : SessionOp → SessionManagerState
  | .start u p w h => (start_session m u p w h).1
  | .stop => (stop_session m).1

def runSession (ops : List SessionOp) : SessionManagerState :=
  ops.foldl sessionStep sessionManagerNew

theorem sessionStep_proc_none (m : SessionManagerState) (op : SessionOp) :
    (sessionStep m op).server_process = none := by
  cases op <;> rfl

theorem runSession_proc_none (ops : List SessionOp) :
    (runSession ops).server_process = none := by
  have haux : ∀ (l : List SessionOp) (m : SessionManagerState), m.server_process = none →
      (l.foldl sessionStep m).server_process = none := by
    intro l
    induction l with
    | nil => intro m hm; exact hm
    | cons op t ih =>
        intro m hm
        exact ih (sessionStep m op) (sessionStep_proc_none m op)
  exact haux ops sessionManagerNew rfl

/-- Counterexample to C8 as frozen: one stream request (`start_session`)
on a fresh manager leaves ZERO live backing processes, not "exactly
one" — the session is recorded but the process spawn is an unimplemented
TODO in the source. -/
theorem session_manager_no_process :
    (start_session sessionManagerNew 7 1 390 844).1.server_process.toList.length = 0
    ∧ (0 : Nat) ≠ 1 := by
  constructor
  · rfl
  · decide

/-- **C8** (amended: the mutual-exclusion half holds — at most one
session and at most one backing process are ever retained, and
`start_session` stops (kills and waits on) any existing session's
process before recording the new one — but "exactly one live backing
process" does not: the spawn is a TODO, so the manager retains zero
processes after any sequence of requests). -/
theorem session_manager_exclusive (ops : List SessionOp) :
    (runSession ops).server_process = none
    ∧ (runSession ops).server_process.toList.length ≤ 1
    ∧ (∀ u p w h, (start_session (runSession ops) u p w h).1 =
        ⟨some ⟨u, p, some 0, w, h⟩, none⟩)
    ∧ (stop_session (runSession ops)).1 = ⟨none, none⟩ := by
  have hnone := runSession_proc_none ops
  refine ⟨hnone, by rw [hnone]; simp, ?_, rfl⟩
  intro u p w h
  simp [start_session, stop_session]


/-- The suffix of `s` after the first occurrence of `marker`
(`line.find(marker)` + slice, `main.rs:466-467`); `none` when the marker
does not occur. -/
def dropAfterFirst (marker : List Nat) : List Nat → Option (List Nat)
  | [] => if marker.isPrefixOf ([] : List Nat) then some [] else none
  | b :: rest =>
      if marker.isPrefixOf (b :: rest) then some ((b :: rest).drop marker.length)
      else dropAfterFirst marker rest

/-- Rust `str::trim_start_matches(c)`: remove every leading `c`. -/
def trimStartMatchesByte (c : Nat) (l : List Nat) : List Nat :=
  l.dropWhile (· == c)

/-- Rust `str::trim_end_matches(c)`: remove every trailing `c`. -/
def trimEndMatchesByte (c : Nat) (l : List Nat) : List Nat :=
  (l.reverse.dropWhile (· == c)).reverse

/-- Rust `str::trim_matches(c)`: remove every leading and trailing `c`. -/
def trimMatchesByte (c : Nat) (l : List Nat) : List Nat :=
  trimEndMatchesByte c (trimStartMatchesByte c l)

/-- Rust `str::split(c)` (splits at every separator, keeping empty
pieces). -/
def splitOnByte (sep : Nat) : List Nat → List (List Nat)
  | [] => [[]]
  | b :: rest =>
      if b = sep then [] :: splitOnByte sep rest
      else
        match splitOnByte sep rest with
        | [] => [[b]]
        | h :: t => (b :: h) :: t

/-- Rust `str::splitn(2, '=')` as used in `parse_fbsimctl_attributes_line`
(`main.rs:480-482`): the part before the first `=` (byte 61), and — when
a `=` occurs — everything after it. -/
def splitFirstEq : List Nat → List Nat × Option (List Nat)
  | [] => ([], none)
  | b :: rest =>
      if b = 61 then ([], some rest)
      else
        let p := splitFirstEq rest
        (b :: p.1, p.2)

/-- The four key registers of the banner-parsing loop
(`main.rs:470-473`). -/
structure BannerState where
  width : Option Nat
  height : Option Nat
  row_size : Option Nat
  frame_size : Option Nat
deriving DecidableEq

/-- The `match key` assignment of the banner loop (`main.rs:484-490`): a
recognised key is overwritten with the parse result (even when parsing
failed); unknown keys are ignored. -/
def applyBannerPart (st : BannerState) (key : List Nat) (parsed : Option Nat) : BannerState :=
  if key = strBytes "width" then { st with width := parsed }
  else if key = strBytes "height" then { st with height := parsed }
  else if key = strBytes "row_size" then { st with row_size := parsed }
  else if key = strBytes "frame_size" then { st with frame_size := parsed }
  else st

/-- The `for part in attrs.split(';')` loop (`main.rs:475-491`): empty
parts (after trimming) are skipped; a non-empty part without `=` makes
`iter.next()?` return `None` from the whole function; otherwise the key
is trimmed of whitespace and quotes, the value trimmed and parsed as
`usize`, and the matching register assigned. -/
def parseBannerParts : List (List Nat) → BannerState → Option BannerState
  | [], st => some st
  | part :: rest, st =>
      let part := trimBytes part
      if part = [] then parseBannerParts rest st
      else
        let sp := splitFirstEq part
        match sp.2 with
        | none => none
        | some v =>
            let key := trimMatchesByte 34 (trimBytes sp.1)
            let value := trimBytes v
            parseBannerParts rest (applyBannerPart st key (parseUsize value))

/-- `parse_fbsimctl_attributes_line` (`main.rs:464-504`), with the
wrapping `width * 4` default for a missing `row_size` and the saturating
`row_size * height` default for a missing `frame_size` made explicit. -/
def parse_fbsimctl_attributes_line (line : List Nat) : Option FbsimctlStreamAttributes :=
  match dropAfterFirst (strBytes "Mounting Surface with Attributes:") line with
  | none => none
  | some tail0 =>
      let attrsStr := trimEndMatchesByte 125 (trimStartMatchesByte 123 (trimBytes tail0))
      match parseBannerParts (splitOnByte 59 attrsStr) ⟨none, none, none, none⟩ with
      | none => none
      | some st =>
          match st.width, st.height with
          | some w, some h =>
              let row := st.row_size.getD ((w * 4) % 2 ^ 64)
              let frame := st.frame_size.getD (satMul row h)
              some ⟨w, h, row, frame⟩
          | _, _ => none

/-- Counterexample to C10 as frozen: the banner
`Mounting Surface with Attributes: {width = 100; height = 50; junk}`
carries a parseable width and height (removing the extra part, the same
banner parses to `{100, 50, 400, 20000}`), yet the function returns
`None`: the part `junk` contains no `=`, so the `iter.next()?` on the
value aborts the whole parse.  "Returns None exactly when the banner
lacks a parseable width or height" is therefore false. -/
theorem parse_banner_junk_part_aborts :
    parse_fbsimctl_attributes_line
        (strBytes "Mounting Surface with Attributes: \x7bwidth = 100; height = 50; junk\x7d") =
      none
    ∧ parse_fbsimctl_attributes_line
        (strBytes "Mounting Surface with Attributes: \x7bwidth = 100; height = 50\x7d") =
      some ⟨100, 50, 400, 20000⟩ := by
  constructor
  · rfl
  · rfl


theorem dropWhile_eq_self_of_head (p : Nat → Bool) :
    ∀ (l : List Nat), (∀ b, l.head? = some b → p b = false) → l.dropWhile p = l
  | [], _ => rfl
  | b :: t, h => by simp [List.dropWhile, h b rfl]

theorem trimEndBytes_eq_self (l : List Nat)
    (h : ∀ b, l.getLast? = some b → isWsByte b = false) : trimEndBytes l = l := by
  unfold trimEndBytes
  rw [dropWhile_eq_self_of_head _ l.reverse
    (fun b hb => h b (by rwa [List.head?_reverse] at hb)), List.reverse_reverse]

theorem trimBytes_eq_of_head (l : List Nat)
    (h1 : ∀ b, l.head? = some b → isWsByte b = false)
    (h2 : ∀ b, l.getLast? = some b → isWsByte b = false) : trimBytes l = l := by
  unfold trimBytes
  rw [dropWhile_eq_self_of_head _ l h1]
  exact trimEndBytes_eq_self l h2

theorem trimEndMatchesByte_eq_self (c : Nat) (l : List Nat)
    (h : ∀ b, l.getLast? = some b → (b == c) = false) : trimEndMatchesByte c l = l := by
  unfold trimEndMatchesByte
  rw [dropWhile_eq_self_of_head _ l.reverse
    (fun b hb => h b (by rwa [List.head?_reverse] at hb)), List.reverse_reverse]

theorem trimEndMatchesByte_append_self (c : Nat) (l : List Nat) :
    trimEndMatchesByte c (l ++ [c]) = trimEndMatchesByte c l := by
  unfold trimEndMatchesByte
  simp [List.dropWhile]

/-- Decimal digit bytes of `n`, most significant first (used to build the
test banners). -/
def natBytes (n : Nat) : List Nat :=
  if n = 0 then [48] else ((Nat.digits 10 n).map (· + 48)).reverse

theorem natBytes_digits (n : Nat) : ∀ b ∈ natBytes n, 48 ≤ b ∧ b ≤ 57 := by
  intro b hb
  unfold natBytes at hb
  by_cases hn : n = 0
  · simp [hn] at hb
    omega
  · simp only [hn, if_false, List.mem_reverse, List.mem_map] at hb
    obtain ⟨d, hd, hdb⟩ := hb
    have : d < 10 := Nat.digits_lt_base (by norm_num) hd
    omega

theorem natBytes_ne_nil (n : Nat) : natBytes n ≠ [] := by
  unfold natBytes
  by_cases hn : n = 0
  · simp [hn]
  · simp only [hn, if_false]
    intro hcon
    have := congrArg List.length hcon
    simp [Nat.digits_ne_nil_iff_ne_zero.mpr hn] at this

theorem digitsVal_rev_map (ds : List Nat) (acc : Nat) :
    ((ds.map (fun d => d + 48)).reverse).foldl (fun a b => a * 10 + (b - 48)) acc =
      acc * 10 ^ ds.length + Nat.ofDigits 10 ds := by
  induction ds generalizing acc with
  | nil => simp
  | cons d t ih =>
      simp only [List.map_cons, List.reverse_cons, List.foldl_append, List.foldl_cons,
        List.foldl_nil, ih acc, Nat.ofDigits_cons, List.length_cons, Nat.add_sub_cancel]
      ring

theorem parseUsize_natBytes (n : Nat) (hn : n ≤ usizeMax) :
    parseUsize (natBytes n) = some n := by
  by_cases hz : n = 0
  · subst hz
    rfl
  · obtain ⟨b, t, hbt⟩ := List.exists_cons_of_ne_nil (natBytes_ne_nil n)
    have hbmem : b ∈ natBytes n := by rw [hbt]; simp
    have hb48 := natBytes_digits n b hbmem
    have hb43 : ¬b = 43 := by omega
    have hdig : (natBytes n).all isDigitByte = true := by
      rw [List.all_eq_true]
      intro x hx
      have := natBytes_digits n x hx
      simp only [isDigitByte, Bool.and_eq_true, decide_eq_true_eq]
      omega
    have hval : digitsVal (natBytes n) = n := by
      unfold natBytes digitsVal
      rw [if_neg hz]
      rw [digitsVal_rev_map]
      simp [Nat.ofDigits_digits]
    unfold parseUsize
    rw [hbt]
    simp only [if_neg hb43, ← hbt]
    rw [if_pos ⟨natBytes_ne_nil n, hdig, by rw [hval]; exact hn⟩, hval]

theorem dropAfterFirst_append (m x : List Nat) :
    dropAfterFirst m (m ++ x) = some x := by
  have hp : m.isPrefixOf (m ++ x) = true :=
    List.isPrefixOf_iff_prefix.mpr (List.prefix_append m x)
  have hdrop : (m ++ x).drop m.length = x := List.drop_left m x
  cases hmx : m ++ x with
  | nil =>
      obtain ⟨hm, hx⟩ := List.append_eq_nil.mp hmx
      subst hm; subst hx
      rfl
  | cons b rest =>
      rw [hmx] at hp hdrop
      rw [dropAfterFirst, if_pos hp, hdrop]

theorem splitOnByte_no_sep (sep : Nat) :
    ∀ (a : List Nat), sep ∉ a → splitOnByte sep a = [a]
  | [], _ => rfl
  | b :: t, h => by
      have hb : ¬b = sep := fun hh => h (by simp [hh])
      have ht : sep ∉ t := fun hm => h (List.mem_cons_of_mem _ hm)
      rw [splitOnByte, if_neg hb, splitOnByte_no_sep sep t ht]

theorem splitOnByte_append (sep : Nat) :
    ∀ (a b : List Nat), sep ∉ a →
      splitOnByte sep (a ++ sep :: b) = a :: splitOnByte sep b
  | [], b, _ => by simp [splitOnByte]
  | x :: t, b, h => by
      have hx : ¬x = sep := fun hh => h (by simp [hh])
      have ht : sep ∉ t := fun hm => h (List.mem_cons_of_mem _ hm)
      rw [List.cons_append, splitOnByte, if_neg hx, splitOnByte_append sep t b ht]

theorem splitFirstEq_append (a b : List Nat) (h : 61 ∉ a) :
    splitFirstEq (a ++ 61 :: b) = (a, some b) := by
  induction a with
  | nil => simp [splitFirstEq]
  | cons x t ih =>
      have hx : ¬x = 61 := fun hh => h (by simp [hh])
      have ht : 61 ∉ t := fun hm => h (List.mem_cons_of_mem _ hm)
      simp [splitFirstEq, hx, ih ht]


/-- A banner line carrying only `width` and `height`. -/
def widthHeightBanner (w h : Nat) : List Nat :=
  strBytes "Mounting Surface with Attributes:" ++ strBytes " \x7b" ++
    strBytes "width = " ++ natBytes w ++ strBytes "; height = " ++ natBytes h ++
    strBytes "\x7d"

theorem parse_widthHeightBanner (w h : Nat) (hw : w ≤ usizeMax) (hh : h ≤ usizeMax) :
    parse_fbsimctl_attributes_line (widthHeightBanner w h) =
      some ⟨w, h, (w * 4) % 2 ^ 64, satMul ((w * 4) % 2 ^ 64) h⟩ := by
  have hWdigit : ∀ b ∈ natBytes w, 48 ≤ b ∧ b ≤ 57 := natBytes_digits w
  have hHdigit : ∀ b ∈ natBytes h, 48 ≤ b ∧ b ≤ 57 := natBytes_digits h
  have hWhead : ∀ b, (natBytes w).head? = some b → isWsByte b = false := by
    intro b hb
    have := hWdigit b (List.mem_of_mem_head? (by simp [hb]))
    simp only [isWsByte, Bool.or_eq_false_iff, decide_eq_false_iff_not]
    omega
  have hHhead : ∀ b, (natBytes h).head? = some b → isWsByte b = false := by
    intro b hb
    have := hHdigit b (List.mem_of_mem_head? (by simp [hb]))
    simp only [isWsByte, Bool.or_eq_false_iff, decide_eq_false_iff_not]
    omega
  have hWlast : ∀ b, (natBytes w).getLast? = some b → isWsByte b = false := by
    intro b hb
    have := hWdigit b (List.mem_of_mem_getLast? hb)
    simp only [isWsByte, Bool.or_eq_false_iff, decide_eq_false_iff_not]
    omega
  have hHlast : ∀ b, (natBytes h).getLast? = some b → isWsByte b = false := by
    intro b hb
    have := hHdigit b (List.mem_of_mem_getLast? hb)
    simp only [isWsByte, Bool.or_eq_false_iff, decide_eq_false_iff_not]
    omega
  have hW59 : (59 : Nat) ∉ natBytes w := by
    intro hm
    have := hWdigit 59 hm
    omega
  -- the byte list after the marker, fully right-associated
  have hbanner : widthHeightBanner w h =
      strBytes "Mounting Surface with Attributes:" ++
        (32 :: 123 :: 119 :: 105 :: 100 :: 116 :: 104 :: 32 :: 61 :: 32 ::
          (natBytes w ++
            (59 :: 32 :: 104 :: 101 :: 105 :: 103 :: 104 :: 116 :: 32 :: 61 :: 32 ::
              (natBytes h ++ [125])))) := by
    unfold widthHeightBanner
    simp [strBytes, List.append_assoc]
  rw [hbanner]
  unfold parse_fbsimctl_attributes_line
  rw [dropAfterFirst_append]
  dsimp only
  -- stage 1: str::trim
  have htrim1 : trimBytes
      (32 :: 123 :: 119 :: 105 :: 100 :: 116 :: 104 :: 32 :: 61 :: 32 ::
        (natBytes w ++
          (59 :: 32 :: 104 :: 101 :: 105 :: 103 :: 104 :: 116 :: 32 :: 61 :: 32 ::
            (natBytes h ++ [125])))) =
      123 :: 119 :: 105 :: 100 :: 116 :: 104 :: 32 :: 61 :: 32 ::
        (natBytes w ++
          (59 :: 32 :: 104 :: 101 :: 105 :: 103 :: 104 :: 116 :: 32 :: 61 :: 32 ::
            (natBytes h ++ [125]))) := by
    unfold trimBytes
    rw [show ∀ x : List Nat, (32 :: 123 :: x).dropWhile isWsByte = 123 :: x from
      fun x => by simp [List.dropWhile, isWsByte]]
    apply trimEndBytes_eq_self
    intro b hb
    rw [show 123 :: 119 :: 105 :: 100 :: 116 :: 104 :: 32 :: 61 :: 32 ::
        (natBytes w ++
          (59 :: 32 :: 104 :: 101 :: 105 :: 103 :: 104 :: 116 :: 32 :: 61 :: 32 ::
            (natBytes h ++ [125]))) =
        (123 :: 119 :: 105 :: 100 :: 116 :: 104 :: 32 :: 61 :: 32 ::
          (natBytes w ++
            (59 :: 32 :: 104 :: 101 :: 105 :: 103 :: 104 :: 116 :: 32 :: 61 :: 32 ::
              natBytes h))) ++ [125] from by simp [List.append_assoc]] at hb
    rw [List.getLast?_append_of_ne_nil _ (by simp)] at hb
    simp at hb
    subst hb
    rfl
  rw [htrim1]
  -- stage 2: trim_start_matches brace
  have hstart : trimStartMatchesByte 123
      (123 :: 119 :: 105 :: 100 :: 116 :: 104 :: 32 :: 61 :: 32 ::
        (natBytes w ++
          (59 :: 32 :: 104 :: 101 :: 105 :: 103 :: 104 :: 116 :: 32 :: 61 :: 32 ::
            (natBytes h ++ [125])))) =
      119 :: 105 :: 100 :: 116 :: 104 :: 32 :: 61 :: 32 ::
        (natBytes w ++
          (59 :: 32 :: 104 :: 101 :: 105 :: 103 :: 104 :: 116 :: 32 :: 61 :: 32 ::
            (natBytes h ++ [125]))) := by
    simp [trimStartMatchesByte, List.dropWhile]
  rw [hstart]
  -- stage 3: trim_end_matches brace
  have hend : trimEndMatchesByte 125
      (119 :: 105 :: 100 :: 116 :: 104 :: 32 :: 61 :: 32 ::
        (natBytes w ++
          (59 :: 32 :: 104 :: 101 :: 105 :: 103 :: 104 :: 116 :: 32 :: 61 :: 32 ::
            (natBytes h ++ [125])))) =
      119 :: 105 :: 100 :: 116 :: 104 :: 32 :: 61 :: 32 ::
        (natBytes w ++
          (59 :: 32 :: 104 :: 101 :: 105 :: 103 :: 104 :: 116 :: 32 :: 61 :: 32 ::
            natBytes h)) := by
    rw [show 119 :: 105 :: 100 :: 116 :: 104 :: 32 :: 61 :: 32 ::
        (natBytes w ++
          (59 :: 32 :: 104 :: 101 :: 105 :: 103 :: 104 :: 116 :: 32 :: 61 :: 32 ::
            (natBytes h ++ [125]))) =
        (119 :: 105 :: 100 :: 116 :: 104 :: 32 :: 61 :: 32 ::
          (natBytes w ++
            (59 :: 32 :: 104 :: 101 :: 105 :: 103 :: 104 :: 116 :: 32 :: 61 :: 32 ::
              natBytes h))) ++ [125] from by simp [List.append_assoc]]
    rw [trimEndMatchesByte_append_self]
    apply trimEndMatchesByte_eq_self
    intro b hb
    rw [show 119 :: 105 :: 100 :: 116 :: 104 :: 32 :: 61 :: 32 ::
        (natBytes w ++
          (59 :: 32 :: 104 :: 101 :: 105 :: 103 :: 104 :: 116 :: 32 :: 61 :: 32 ::
            natBytes h)) =
        (119 :: 105 :: 100 :: 116 :: 104 :: 32 :: 61 :: 32 ::
          (natBytes w ++
            [59, 32, 104, 101, 105, 103, 104, 116, 32, 61, 32])) ++ natBytes h from by
      simp [List.append_assoc]] at hb
    rw [List.getLast?_append_of_ne_nil _ (natBytes_ne_nil h)] at hb
    have := hHdigit b (List.mem_of_mem_getLast? hb)
    simp only [beq_eq_false_iff_ne, ne_eq]
    omega
  rw [hend]
  -- stage 4: split on semicolons
  have hsplit : splitOnByte 59
      (119 :: 105 :: 100 :: 116 :: 104 :: 32 :: 61 :: 32 ::
        (natBytes w ++
          (59 :: 32 :: 104 :: 101 :: 105 :: 103 :: 104 :: 116 :: 32 :: 61 :: 32 ::
            natBytes h))) =
      [119 :: 105 :: 100 :: 116 :: 104 :: 32 :: 61 :: 32 :: natBytes w,
       32 :: 104 :: 101 :: 105 :: 103 :: 104 :: 116 :: 32 :: 61 :: 32 :: natBytes h] := by
    have hn2 : (59 : Nat) ∉
        32 :: 104 :: 101 :: 105 :: 103 :: 104 :: 116 :: 32 :: 61 :: 32 :: natBytes h := by
      intro hm
      simp only [List.mem_cons] at hm
      rcases hm with h1 | h1 | h1 | h1 | h1 | h1 | h1 | h1 | h1 | h1 | h1 <;>
        first
          | omega
          | exact absurd (hHdigit 59 h1) (by omega)
    have hsub : splitOnByte 59
        (natBytes w ++
          (59 :: 32 :: 104 :: 101 :: 105 :: 103 :: 104 :: 116 :: 32 :: 61 :: 32 ::
            natBytes h)) =
        natBytes w ::
          [32 :: 104 :: 101 :: 105 :: 103 :: 104 :: 116 :: 32 :: 61 :: 32 :: natBytes h] := by
      rw [splitOnByte_append 59 (natBytes w) _ hW59,
        splitOnByte_no_sep 59 _ hn2]
    simp [splitOnByte, hsub]
  rw [hsplit]
  -- stage 5: the two parts
  have hvalW : trimBytes (32 :: natBytes w) = natBytes w := by
    unfold trimBytes
    rw [show (32 :: natBytes w).dropWhile isWsByte = (natBytes w).dropWhile isWsByte from by
      simp [List.dropWhile, isWsByte]]
    rw [dropWhile_eq_self_of_head _ _ hWhead]
    exact trimEndBytes_eq_self _ hWlast
  have hvalH : trimBytes (32 :: natBytes h) = natBytes h := by
    unfold trimBytes
    rw [show (32 :: natBytes h).dropWhile isWsByte = (natBytes h).dropWhile isWsByte from by
      simp [List.dropWhile, isWsByte]]
    rw [dropWhile_eq_self_of_head _ _ hHhead]
    exact trimEndBytes_eq_self _ hHlast
  have htrimP1 : trimBytes (119 :: 105 :: 100 :: 116 :: 104 :: 32 :: 61 :: 32 :: natBytes w) =
      119 :: 105 :: 100 :: 116 :: 104 :: 32 :: 61 :: 32 :: natBytes w := by
    apply trimBytes_eq_of_head
    · intro b hb
      simp at hb
      subst hb
      rfl
    · intro b hb
      rw [show 119 :: 105 :: 100 :: 116 :: 104 :: 32 :: 61 :: 32 :: natBytes w =
          [119, 105, 100, 116, 104, 32, 61, 32] ++ natBytes w from by simp] at hb
      rw [List.getLast?_append_of_ne_nil _ (natBytes_ne_nil w)] at hb
      exact hWlast b hb
  have htrimP2 : trimBytes
      (32 :: 104 :: 101 :: 105 :: 103 :: 104 :: 116 :: 32 :: 61 :: 32 :: natBytes h) =
      104 :: 101 :: 105 :: 103 :: 104 :: 116 :: 32 :: 61 :: 32 :: natBytes h := by
    unfold trimBytes
    rw [show (32 :: 104 :: 101 :: 105 :: 103 :: 104 :: 116 :: 32 :: 61 :: 32 ::
        natBytes h).dropWhile isWsByte =
        104 :: 101 :: 105 :: 103 :: 104 :: 116 :: 32 :: 61 :: 32 :: natBytes h from by
      simp [List.dropWhile, isWsByte]]
    apply trimEndBytes_eq_self
    intro b hb
    rw [show 104 :: 101 :: 105 :: 103 :: 104 :: 116 :: 32 :: 61 :: 32 :: natBytes h =
        [104, 101, 105, 103, 104, 116, 32, 61, 32] ++ natBytes h from by simp] at hb
    rw [List.getLast?_append_of_ne_nil _ (natBytes_ne_nil h)] at hb
    exact hHlast b hb
  have hsp1 : splitFirstEq (119 :: 105 :: 100 :: 116 :: 104 :: 32 :: 61 :: 32 :: natBytes w) =
      ([119, 105, 100, 116, 104, 32], some (32 :: natBytes w)) := by
    have := splitFirstEq_append [119, 105, 100, 116, 104, 32] (32 :: natBytes w) (by decide)
    simpa using this
  have hsp2 : splitFirstEq (104 :: 101 :: 105 :: 103 :: 104 :: 116 :: 32 :: 61 :: 32 ::
      natBytes h) = ([104, 101, 105, 103, 104, 116, 32], some (32 :: natBytes h)) := by
    have := splitFirstEq_append [104, 101, 105, 103, 104, 116, 32] (32 :: natBytes h)
      (by decide)
    simpa using this
  -- assemble the part loop
  rw [parseBannerParts]
  dsimp only
  rw [htrimP1]
  rw [if_neg (by simp : ¬(119 :: 105 :: 100 :: 116 :: 104 :: 32 :: 61 :: 32 ::
    natBytes w = []))]
  rw [hsp1]
  dsimp only
  rw [hvalW, parseUsize_natBytes w hw]
  rw [show trimMatchesByte 34 (trimBytes [119, 105, 100, 116, 104, 32]) =
    strBytes "width" from by rfl]
  rw [show applyBannerPart ⟨none, none, none, none⟩ (strBytes "width") (some w) =
    ⟨some w, none, none, none⟩ from by rfl]
  rw [parseBannerParts]
  dsimp only
  rw [htrimP2]
  rw [if_neg (by simp : ¬(104 :: 101 :: 105 :: 103 :: 104 :: 116 :: 32 :: 61 :: 32 ::
    natBytes h = []))]
  rw [hsp2]
  dsimp only
  rw [hvalH, parseUsize_natBytes h hh]
  rw [show trimMatchesByte 34 (trimBytes [104, 101, 105, 103, 104, 116, 32]) =
    strBytes "height" from by rfl]
  rw [show applyBannerPart ⟨some w, none, none, none⟩ (strBytes "height") (some h) =
    ⟨some w, some h, none, none⟩ from by rfl]
  rw [parseBannerParts]
  rfl


/-- `parse_fbsimctl_attributes_line`'s part loop returns `None` exactly
when some part that is non-empty after trimming contains no `=` (the
`iter.next()?` on the missing value, `main.rs:482`). -/
theorem parseBannerParts_none_iff :
    ∀ (parts : List (List Nat)) (st : BannerState),
      parseBannerParts parts st = none ↔
        ∃ p ∈ parts, trimBytes p ≠ [] ∧ (splitFirstEq (trimBytes p)).2 = none
  | [], st => by simp [parseBannerParts]
  | p :: rest, st => by
      rw [parseBannerParts]
      dsimp only
      by_cases hp : trimBytes p = []
      · rw [if_pos hp, parseBannerParts_none_iff rest st]
        constructor
        · rintro ⟨q, hq, hcond⟩
          exact ⟨q, List.mem_cons_of_mem _ hq, hcond⟩
        · rintro ⟨q, hq, hcond⟩
          rcases List.mem_cons.mp hq with rfl | hq2
          · exact absurd hp hcond.1
          · exact ⟨q, hq2, hcond⟩
      · rw [if_neg hp]
        cases hsp : (splitFirstEq (trimBytes p)).2 with
        | none =>
            simp only [hsp]
            constructor
            · intro _
              exact ⟨p, List.mem_cons_self p rest, hp, hsp⟩
            · intro _
              trivial
        | some v =>
            simp only [hsp]
            rw [parseBannerParts_none_iff rest _]
            constructor
            · rintro ⟨q, hq, hcond⟩
              exact ⟨q, List.mem_cons_of_mem _ hq, hcond⟩
            · rintro ⟨q, hq, hcond⟩
              rcases List.mem_cons.mp hq with rfl | hq2
              · rw [hsp] at hcond
                exact absurd hcond.2 (by simp)
              · exact ⟨q, hq2, hcond⟩

/-- **C10** (amended: `parse_fbsimctl_attributes_line` returns `None`
exactly when the marker is absent, when some `;`-part that is non-empty
after trimming contains no `=` — which aborts the parse even when
parseable width and height are present, refuting the frozen claim's
"exactly when", see `parse_banner_junk_part_aborts` — or when the part
loop finishes with the width or height register empty, i.e. width or
height was never assigned or its last assignment failed to parse; when
the banner parses, an absent `row_size` defaults to `width*4` (wrapping)
and an absent `frame_size` to `row_size*height` (saturating), so a
well-formed banner carrying only width and height always yields
attributes that pass the subsequent geometry validation and commit to
streaming).  The last conjunct is the full `None` characterization; the
first is the marker-absent special case kept for direct use. -/
theorem parse_fbsimctl_attributes_spec :
    (∀ line, dropAfterFirst (strBytes "Mounting Surface with Attributes:") line = none →
      parse_fbsimctl_attributes_line line = none)
    ∧ (∀ w h : Nat, w ≤ usizeMax → h ≤ usizeMax →
        parse_fbsimctl_attributes_line (widthHeightBanner w h) =
          some ⟨w, h, (w * 4) % 2 ^ 64, satMul ((w * 4) % 2 ^ 64) h⟩)
    ∧ (∀ (w h : Nat) (sr : Bool),
        fbsimctlAfterAttrs ⟨w, h, (w * 4) % 2 ^ 64, satMul ((w * 4) % 2 ^ 64) h⟩ sr =
          ([FbsimctlEvent.storeMode4, FbsimctlEvent.streamStart, FbsimctlEvent.killChild],
            sr))
    ∧ ∀ line : List Nat,
        parse_fbsimctl_attributes_line line = none ↔
          dropAfterFirst (strBytes "Mounting Surface with Attributes:") line = none
          ∨ ∃ tail0,
              dropAfterFirst (strBytes "Mounting Surface with Attributes:") line =
                some tail0
              ∧ ((∃ p ∈ splitOnByte 59
                      (trimEndMatchesByte 125 (trimStartMatchesByte 123 (trimBytes tail0))),
                    trimBytes p ≠ [] ∧ (splitFirstEq (trimBytes p)).2 = none)
                ∨ ∃ st, parseBannerParts
                      (splitOnByte 59
                        (trimEndMatchesByte 125 (trimStartMatchesByte 123 (trimBytes tail0))))
                      ⟨none, none, none, none⟩ = some st
                    ∧ (st.width = none ∨ st.height = none)) := by
  refine ⟨?_, fun w h hw hh => parse_widthHeightBanner w h hw hh, ?_, ?_⟩
  · intro line hnone
    unfold parse_fbsimctl_attributes_line
    rw [hnone]
  · intro w h sr
    unfold fbsimctlAfterAttrs
    rw [if_neg (Nat.lt_irrefl _), if_neg (Nat.lt_irrefl _)]
  · intro line
    unfold parse_fbsimctl_attributes_line
    cases hdrop : dropAfterFirst (strBytes "Mounting Surface with Attributes:") line with
    | none => simp
    | some tail0 =>
        dsimp only
        cases hpb : parseBannerParts
            (splitOnByte 59
              (trimEndMatchesByte 125 (trimStartMatchesByte 123 (trimBytes tail0))))
            ⟨none, none, none, none⟩ with
        | none =>
            simp only [hpb]
            constructor
            · intro _
              exact Or.inr ⟨tail0, rfl,
                Or.inl ((parseBannerParts_none_iff _ _).mp hpb)⟩
            · intro _
              trivial
        | some st =>
            simp only [hpb]
            have hnotnone : ¬(∃ p ∈ splitOnByte 59
                (trimEndMatchesByte 125 (trimStartMatchesByte 123 (trimBytes tail0))),
                trimBytes p ≠ [] ∧ (splitFirstEq (trimBytes p)).2 = none) := by
              intro hex
              have hnone := (parseBannerParts_none_iff _
                (⟨none, none, none, none⟩ : BannerState)).mpr hex
              rw [hpb] at hnone
              exact absurd hnone (by simp)
            cases hw2 : st.width with
            | none =>
                constructor
                · intro _
                  exact Or.inr ⟨tail0, rfl, Or.inr ⟨st, hpb, Or.inl hw2⟩⟩
                · intro _
                  cases st.height <;> rfl
            | some w =>
                cases hh2 : st.height with
                | none =>
                    constructor
                    · intro _
                      exact Or.inr ⟨tail0, rfl, Or.inr ⟨st, hpb, Or.inr hh2⟩⟩
                    · intro _
                      rfl
                | some h =>
                    constructor
                    · intro hcon
                      exact absurd hcon (by simp)
                    · rintro (hcon | ⟨t2, ht2, hrest⟩)
                      · exact absurd hcon (by simp)
                      · have ht2e : t2 = tail0 := (Option.some_inj.mp ht2).symm
                        subst ht2e
                        rcases hrest with hcon | ⟨st2, hst2, hcon⟩
                        · exact absurd hcon hnotnone
                        · rw [hpb] at hst2
                          have hst2e : st2 = st := (Option.some_inj.mp hst2).symm
                          subst hst2e
                          rcases hcon with hcon | hcon
                          · rw [hw2] at hcon
                            exact absurd hcon (by simp)
                          · rw [hh2] at hcon
                            exact absurd hcon (by simp)

/-- Witness for C10: the banner carrying only `width = 100` and
`height = 50` parses to `{100, 50, 400, 20000}`; a line without the
marker parses to `None`; a banner whose last width assignment is
unparseable (`width = abc`) parses to `None` by the characterization. -/
theorem parse_fbsimctl_attributes_spec_witness :
    parse_fbsimctl_attributes_line (widthHeightBanner 100 50) = some ⟨100, 50, 400, 20000⟩
    ∧ parse_fbsimctl_attributes_line (strBytes "no marker here") = none
    ∧ parse_fbsimctl_attributes_line
        (strBytes "Mounting Surface with Attributes: \x7bwidth = abc; height = 50\x7d") =
      none := by
  refine ⟨?_, ?_, ?_⟩
  · have h := parse_fbsimctl_attributes_spec.2.1 100 50 (by norm_num [usizeMax])
      (by norm_num [usizeMax])
    rw [h]
    rfl
  · exact parse_fbsimctl_attributes_spec.1 (strBytes "no marker here") (by rfl)
  · exact (parse_fbsimctl_attributes_spec.2.2.2 _).mpr
      (Or.inr ⟨_, rfl, Or.inr ⟨_, rfl, Or.inl rfl⟩⟩)
end Plasma
